import Mathlib

/-!
Verification of the failover configuration and notification components of
the solana-validator-ha controller, shallowly embedded from its Go source.

Conventions of the embedding:
* Go maps (`map[string]Peer`, `map[string]int`) are represented either as
  association lists in an arbitrary iteration order (for iteration over a
  map) or as functions `String → Option Nat` built by successive updates
  (for maps built up by assignment, where a later write wins).
* `time.Duration` values are `Int` nanosecond counts.
* Fallible Go functions returning `error` become `Except String Unit`,
  carrying the error message of the source.
* External subprocess execution (`command.Run`) is an oracle parameter
  `exec : Hook → Except String Unit`; the hook machinery never inspects it
  beyond success/failure, exactly as the source only tests `err != nil`.
-/

namespace SolanaValidatorHA

/-! ## Byte-lexicographic string order

Go's `sort.Strings` sorts by the built-in string `<`, which compares
byte-wise. The IP strings handled here are ASCII, where byte order,
codepoint order and lexicographic character order coincide; we model the
order on the character lists underlying Lean strings. -/

/-- Lexicographic strict order on character lists, by codepoint. -/
def charListLt : List Char → List Char → Bool
  | [], [] => false
  | [], _ :: _ => true
  | _ :: _, [] => false
  | x :: xs, y :: ys =>
    if x.toNat < y.toNat then true
    else if y.toNat < x.toNat then false
    else charListLt xs ys

/-- Go string `<`. -/
def strLt (a b : String) : Bool := charListLt a.data b.data

/-- Go string `<=` (total order: `a <= b ↔ ¬ b < a`). -/
def strLe (a b : String) : Bool := !strLt b a

/-- Model of `strLe` as a relation, for use with Mathlib's sorting lemmas. -/
abbrev strLeProp (a b : String) : Prop := strLe a b = true

theorem charListLt_irrefl : ∀ l : List Char, charListLt l l = false
  | [] => rfl
  | _ :: cs => by simp [charListLt, charListLt_irrefl cs]

theorem charListLt_asymm : ∀ a b : List Char,
    charListLt a b = true → charListLt b a = false
  | [], [] => by simp [charListLt]
  | [], _ :: _ => by simp [charListLt]
  | _ :: _, [] => by simp [charListLt]
  | x :: xs, y :: ys => by
    by_cases h1 : x.toNat < y.toNat
    · intro _
      have h2 : ¬ y.toNat < x.toNat := by omega
      simp [charListLt, h1, h2]
    · by_cases h2 : y.toNat < x.toNat
      · intro h
        simp [charListLt, h1, h2] at h
      · intro h
        simp only [charListLt, if_neg h1, if_neg h2] at h
        simp [charListLt, h1, h2, charListLt_asymm xs ys h]

theorem char_eq_of_toNat_eq {a b : Char} (h : a.toNat = b.toNat) : a = b :=
  Char.ext (UInt32.ext h)

theorem charListLt_connex : ∀ a b : List Char,
    charListLt a b = false → charListLt b a = false → a = b
  | [], [] => by simp
  | [], _ :: _ => by simp [charListLt]
  | _ :: _, [] => by simp [charListLt]
  | x :: xs, y :: ys => by
    intro hab hba
    by_cases h1 : x.toNat < y.toNat
    · simp [charListLt, h1] at hab
    · by_cases h2 : y.toNat < x.toNat
      · simp [charListLt, h2] at hba
      · simp only [charListLt, if_neg h1, if_neg h2] at hab hba
        have hxy : x = y := char_eq_of_toNat_eq (by omega)
        rw [hxy, charListLt_connex xs ys hab hba]

theorem charListLt_trans : ∀ a b c : List Char,
    charListLt a b = true → charListLt b c = true → charListLt a c = true
  | [], [], _ => by simp [charListLt]
  | [], _ :: _, [] => by simp [charListLt]
  | [], _ :: _, _ :: _ => by simp [charListLt]
  | _ :: _, [], _ => by simp [charListLt]
  | _ :: _, _ :: _, [] => by simp [charListLt]
  | x :: xs, y :: ys, z :: zs => by
    intro h1 h2
    by_cases hxy : x.toNat < y.toNat
    · by_cases hyz : y.toNat < z.toNat
      · simp [charListLt, show x.toNat < z.toNat by omega]
      · by_cases hzy : z.toNat < y.toNat
        · simp [charListLt, hyz, hzy] at h2
        · simp [charListLt, show x.toNat < z.toNat by omega]
    · by_cases hyx : y.toNat < x.toNat
      · simp [charListLt, hxy, hyx] at h1
      · simp only [charListLt, if_neg hxy, if_neg hyx] at h1
        by_cases hyz : y.toNat < z.toNat
        · simp [charListLt, show x.toNat < z.toNat by omega]
        · by_cases hzy : z.toNat < y.toNat
          · simp [charListLt, hyz, hzy] at h2
          · simp only [charListLt, if_neg hyz, if_neg hzy] at h2
            have hxz1 : ¬ x.toNat < z.toNat := by omega
            have hxz2 : ¬ z.toNat < x.toNat := by omega
            simp [charListLt, hxz1, hxz2, charListLt_trans xs ys zs h1 h2]

instance : IsTotal String strLeProp :=
  ⟨fun a b => by
    unfold strLeProp strLe
    by_cases h : strLt b a = true
    · right
      have := charListLt_asymm b.data a.data h
      simp [strLt, this]
    · left
      simp [h]⟩

instance : IsTrans String strLeProp :=
  ⟨fun a b c hab hbc => by
    unfold strLeProp strLe at *
    simp only [Bool.not_eq_eq_eq_not, Bool.not_true] at hab hbc ⊢
    by_contra hca
    have hca : charListLt c.data a.data = true := by
      simpa [strLt] using hca
    by_cases hbc2 : charListLt b.data c.data = true
    · have := charListLt_trans b.data c.data a.data hbc2 hca
      simp [strLt, this] at hab
    · have heq : b.data = c.data :=
        charListLt_connex b.data c.data
          (by simpa using hbc2) (by simpa [strLt] using hbc)
      rw [← heq] at hca
      simp [strLt, hca] at hab⟩

instance : IsAntisymm String strLeProp :=
  ⟨fun a b hab hba => by
    unfold strLeProp strLe at hab hba
    simp only [Bool.not_eq_eq_eq_not, Bool.not_true, strLt] at hab hba
    have h := charListLt_connex a.data b.data hba hab
    cases a
    cases b
    exact congrArg String.mk h⟩

/-! ## Peers and ranking (internal/config/peers.go) -/

/-- Model of `Peer` from peers.go: a peer validator, with its IPv4 address string. -/
structure Peer where
  ip : String
  name : String
deriving DecidableEq

/-- A `Peers` map (`map[string]Peer`), as a list of name/peer entries in
the (arbitrary) iteration order a Go `range` would visit them. -/
abbrev PeersList := List (String × Peer)

/-- Model of `Peers.GetIPs` (peers.go lines 43-49): collects the IP addresses of the
peers in iteration order. -/
def getIPs (peers : PeersList) : List String :=
  peers.map (fun p => p.2.ip)

/-- The loop of `GetRankedIPs` (peers.go lines 60-62): pair each IP of the
(already sorted) list with its index + 1; `i` is the index of the head. -/
def rankList : List String → Nat → List (String × Nat)
  | [], _ => []
  | ip :: rest, i => (ip, i + 1) :: rankList rest (i + 1)

/-- Writing a list of key/value pairs into a Go map in order: a later write
to the same key overwrites an earlier one. -/
def insertRanks (m : String → Option Nat) : List (String × Nat) → (String → Option Nat)
  | [] => m
  | (ip, r) :: rest => insertRanks (Function.update m ip (some r)) rest

/-- Model of `Peers.GetRankedIPs` (peers.go lines 54-65): sort the IPs ascending
(`sort.Strings`), then assign rank index+1 to each IP in the result map. -/
def rankedIPsOf (ips : List String) : String → Option Nat :=
  insertRanks (fun _ => none) (rankList (List.insertionSort strLeProp ips) 0)

/-- Model of `Peers.GetRankedIPs` on a peers map. -/
def getRankedIPs (peers : PeersList) : String → Option Nat :=
  rankedIPsOf (getIPs peers)

theorem insertRanks_not_mem (m : String → Option Nat) :
    ∀ l : List (String × Nat), ∀ ip, ip ∉ l.map Prod.fst → insertRanks m l ip = m ip
  | [], _, _ => rfl
  | (k, v) :: rest, ip, h => by
    simp only [List.map_cons, List.mem_cons, not_or] at h
    rw [insertRanks, insertRanks_not_mem (Function.update m k (some v)) rest ip h.2,
      Function.update_noteq h.1]

theorem insertRanks_mem (m : String → Option Nat) :
    ∀ l : List (String × Nat), (l.map Prod.fst).Nodup →
      ∀ ip r, (ip, r) ∈ l → insertRanks m l ip = some r
  | (k, v) :: rest, hnd, ip, r, hmem => by
    simp only [List.map_cons, List.nodup_cons] at hnd
    rcases List.mem_cons.mp hmem with heq | hrest
    · obtain ⟨rfl, rfl⟩ := Prod.mk.injEq .. ▸ heq
      rw [insertRanks, insertRanks_not_mem _ rest ip hnd.1, Function.update_same]
    · exact insertRanks_mem (Function.update m k (some v)) rest hnd.2 ip r hrest

theorem rankList_keys : ∀ (l : List String) (i : Nat), (rankList l i).map Prod.fst = l
  | [], _ => rfl
  | ip :: rest, i => by rw [rankList, List.map_cons, rankList_keys rest (i + 1)]

theorem rankList_mem_of_getElem :
    ∀ (l : List String) (i n : Nat) (ip : String),
      l[n]? = some ip → (ip, i + n + 1) ∈ rankList l i
  | [], _, n, ip, h => by simp at h
  | x :: rest, i, 0, ip, h => by
    simp only [List.getElem?_cons_zero, Option.some.injEq] at h
    subst h
    exact List.mem_cons_self _ _
  | x :: rest, i, n + 1, ip, h => by
    simp only [List.getElem?_cons_succ] at h
    have := rankList_mem_of_getElem rest (i + 1) n ip h
    rw [rankList]
    refine List.mem_cons_of_mem _ ?_
    have harith : i + (n + 1) + 1 = i + 1 + n + 1 := by omega
    rw [harith]
    exact this

/-- The sorted IP list a peers list gives rise to. -/
def sortedIPs (ips : List String) : List String :=
  List.insertionSort strLeProp ips

theorem rankedIPsOf_eq_of_getElem (ips : List String) (hnd : ips.Nodup)
    {n : Nat} {ip : String} (h : (sortedIPs ips)[n]? = some ip) :
    rankedIPsOf ips ip = some (n + 1) := by
  have hperm : (sortedIPs ips).Perm ips := List.perm_insertionSort _ _
  have hnds : (sortedIPs ips).Nodup := hperm.symm.nodup hnd
  have hkeys : ((rankList (sortedIPs ips) 0).map Prod.fst).Nodup := by
    rw [rankList_keys]
    exact hnds
  have hmem : (ip, 0 + n + 1) ∈ rankList (sortedIPs ips) 0 :=
    rankList_mem_of_getElem _ 0 n ip h
  have := insertRanks_mem (fun _ => none) _ hkeys ip (0 + n + 1) hmem
  simpa [rankedIPsOf, sortedIPs] using this

theorem rankedIPsOf_eq_some_iff (ips : List String) (hnd : ips.Nodup)
    (ip : String) (r : Nat) :
    rankedIPsOf ips ip = some r ↔ ∃ n, (sortedIPs ips)[n]? = some ip ∧ r = n + 1 := by
  constructor
  · intro h
    by_cases hmem : ip ∈ sortedIPs ips
    · obtain ⟨n, hn⟩ := List.mem_iff_getElem?.mp hmem
      refine ⟨n, hn, ?_⟩
      have := rankedIPsOf_eq_of_getElem ips hnd hn
      rw [h] at this
      simpa using this
    · have : rankedIPsOf ips ip = none := by
        unfold rankedIPsOf
        rw [insertRanks_not_mem]
        rw [rankList_keys]
        exact hmem
      rw [h] at this
      simp at this
  · rintro ⟨n, hn, rfl⟩
    exact rankedIPsOf_eq_of_getElem ips hnd hn

theorem strLt_irrefl (a : String) : strLt a a = false :=
  charListLt_irrefl a.data

/--
C1: for a peers map with pairwise-distinct IP strings, `GetRankedIPs`
assigns to each configured IP a rank that is a bijection onto `1..N`
(`N` the number of peers), is strictly monotone with respect to the
byte-lexicographic order on the IP strings, and is the same function on
any two peers maps holding the same multiset of IPs (in particular, the
result does not depend on Go's map iteration order).
-/
theorem C1_getRankedIPs_rank_bijection (peers peers2 : PeersList)
    (hnd : (getIPs peers).Nodup)
    (hsame : (getIPs peers).Perm (getIPs peers2)) :
    (∀ ip ∈ getIPs peers, ∃ r, getRankedIPs peers ip = some r ∧ 1 ≤ r ∧ r ≤ peers.length) ∧
    (∀ ip1 ∈ getIPs peers, ∀ ip2 ∈ getIPs peers, strLt ip1 ip2 = true →
      ∀ r1 r2, getRankedIPs peers ip1 = some r1 → getRankedIPs peers ip2 = some r2 →
        r1 < r2) ∧
    (∀ ip1 ∈ getIPs peers, ∀ ip2 ∈ getIPs peers,
      getRankedIPs peers ip1 = getRankedIPs peers ip2 → ip1 = ip2) ∧
    (∀ r, 1 ≤ r → r ≤ peers.length → ∃ ip ∈ getIPs peers, getRankedIPs peers ip = some r) ∧
    getRankedIPs peers = getRankedIPs peers2 := by
  have hlen : (getIPs peers).length = peers.length := List.length_map _ _
  have hperm : (sortedIPs (getIPs peers)).Perm (getIPs peers) := List.perm_insertionSort _ _
  have hsort : List.Sorted strLeProp (sortedIPs (getIPs peers)) :=
    List.sorted_insertionSort _ _
  have hnds : (sortedIPs (getIPs peers)).Nodup := hperm.symm.nodup hnd
  have hslen : (sortedIPs (getIPs peers)).length = peers.length := by
    rw [hperm.length_eq, hlen]
  refine ⟨?_, ?_, ?_, ?_, ?_⟩
  · -- every configured IP gets a rank in 1..N
    intro ip hip
    have hips : ip ∈ sortedIPs (getIPs peers) := hperm.mem_iff.mpr hip
    obtain ⟨n, hn⟩ := List.mem_iff_getElem?.mp hips
    have hnlt : n < peers.length := by
      have := (List.getElem?_eq_some.mp hn).1
      omega
    exact ⟨n + 1, rankedIPsOf_eq_of_getElem _ hnd hn, by omega, by omega⟩
  · -- strictly smaller IP strings get strictly smaller ranks
    intro ip1 _ ip2 _ hlt r1 r2 h1 h2
    obtain ⟨n1, hn1, rfl⟩ := (rankedIPsOf_eq_some_iff _ hnd ip1 r1).mp h1
    obtain ⟨n2, hn2, rfl⟩ := (rankedIPsOf_eq_some_iff _ hnd ip2 r2).mp h2
    have hlt12 : n1 < n2 := by
      rcases Nat.lt_trichotomy n1 n2 with h | h | h
      · exact h
      · subst h
        rw [hn1] at hn2
        have : ip1 = ip2 := by simpa using hn2
        subst this
        rw [strLt_irrefl] at hlt
        simp at hlt
      · -- n2 < n1 contradicts sortedness
        obtain ⟨hb1, he1⟩ := List.getElem?_eq_some.mp hn1
        obtain ⟨hb2, he2⟩ := List.getElem?_eq_some.mp hn2
        have hrel := List.pairwise_iff_getElem.mp hsort n2 n1 hb2 hb1 h
        rw [he1, he2] at hrel
        -- hrel : strLe ip2 ip1 = true, i.e. strLt ip1 ip2 = false
        unfold strLeProp strLe at hrel
        rw [hlt] at hrel
        simp at hrel
    omega
  · -- injectivity on configured IPs
    intro ip1 hip1 ip2 _ heq
    have hips1 : ip1 ∈ sortedIPs (getIPs peers) := hperm.mem_iff.mpr hip1
    obtain ⟨n1, hn1⟩ := List.mem_iff_getElem?.mp hips1
    have h1 := rankedIPsOf_eq_of_getElem _ hnd hn1
    have h2 : getRankedIPs peers ip2 = some (n1 + 1) := by
      rw [getRankedIPs] at heq ⊢
      rw [← heq]
      exact h1
    obtain ⟨n2, hn2, hr⟩ := (rankedIPsOf_eq_some_iff _ hnd ip2 (n1 + 1)).mp h2
    have : n2 = n1 := by omega
    subst this
    rw [hn1] at hn2
    simpa using hn2
  · -- surjectivity onto 1..N
    intro r h1 h2
    have hb : r - 1 < (sortedIPs (getIPs peers)).length := by omega
    set ip := (sortedIPs (getIPs peers)).get ⟨r - 1, hb⟩ with hip
    have hget : (sortedIPs (getIPs peers))[r - 1]? = some ip := by
      rw [List.getElem?_eq_getElem hb]
      rfl
    refine ⟨ip, ?_, ?_⟩
    · exact hperm.subset (List.get_mem _ _ hb)
    · have := rankedIPsOf_eq_of_getElem _ hnd hget
      have harith : r - 1 + 1 = r := by omega
      rw [harith] at this
      exact this
  · -- identical output on any permutation of the same peer list
    have hsorteq : sortedIPs (getIPs peers) = sortedIPs (getIPs peers2) := by
      exact List.eq_of_perm_of_sorted
        (hperm.trans (hsame.trans (List.perm_insertionSort _ _).symm))
        hsort (List.sorted_insertionSort _ _)
    show rankedIPsOf (getIPs peers) = rankedIPsOf (getIPs peers2)
    unfold rankedIPsOf
    show insertRanks _ (rankList (sortedIPs (getIPs peers)) 0) =
      insertRanks _ (rankList (sortedIPs (getIPs peers2)) 0)
    rw [hsorteq]

/-- Witness for C1 at a concrete two-peer configuration, presented in two
different map iteration orders. -/
theorem C1_witness :
    ((getIPs [("b", ⟨"10.0.0.2", "b"⟩), ("a", ⟨"10.0.0.1", "a"⟩)]).Nodup ∧
      (getIPs [("b", ⟨"10.0.0.2", "b"⟩), ("a", ⟨"10.0.0.1", "a"⟩)]).Perm
        (getIPs [("a", ⟨"10.0.0.1", "a"⟩), ("b", ⟨"10.0.0.2", "b"⟩)])) ∧
    getRankedIPs [("b", ⟨"10.0.0.2", "b"⟩), ("a", ⟨"10.0.0.1", "a"⟩)] "10.0.0.1" = some 1 ∧
    getRankedIPs [("b", ⟨"10.0.0.2", "b"⟩), ("a", ⟨"10.0.0.1", "a"⟩)] =
      getRankedIPs [("a", ⟨"10.0.0.1", "a"⟩), ("b", ⟨"10.0.0.2", "b"⟩)] := by
  have hnd : (getIPs [("b", (⟨"10.0.0.2", "b"⟩ : Peer)), ("a", ⟨"10.0.0.1", "a"⟩)]).Nodup := by
    decide
  have hsame : (getIPs [("b", (⟨"10.0.0.2", "b"⟩ : Peer)), ("a", ⟨"10.0.0.1", "a"⟩)]).Perm
      (getIPs [("a", ⟨"10.0.0.1", "a"⟩), ("b", ⟨"10.0.0.2", "b"⟩)]) := by
    decide
  have h := C1_getRankedIPs_rank_bijection _ _ hnd hsame
  exact ⟨⟨hnd, hsame⟩, by decide, h.2.2.2.2⟩

/-! ## Hooks (internal/config/failover.go, hooks part, lines 143-275) -/

/-- Model of `Hook` (failover.go lines 150-155). -/
structure Hook where
  name : String
  command : String
  args : List String
  mustSucceed : Bool
deriving DecidableEq

/-- Model of `Hooks` (failover.go lines 144-147). -/
structure Hooks where
  pre : List Hook
  post : List Hook
deriving DecidableEq

/-- Whether an `error`-valued result is non-nil. -/
def isErr : Except String Unit → Bool
  | Except.error _ => true
  | Except.ok _ => false

/-- Model of `Hook.Run` (failover.go lines 208-230), instrumented with whether the
command runner was reached. With `opts.DryRun` set it returns nil before the
`command.Run` call; otherwise the result is whatever `command.Run` — the
oracle `exec` — returns for this hook. The first component records whether
`exec` was consulted (i.e. whether a subprocess could be spawned at all). -/
def hookRunTrace (exec : Hook → Except String Unit) (dryRun : Bool) (h : Hook) :
    Bool × Except String Unit :=
  if dryRun then (false, Except.ok ())
  else (true, exec h)

/-- Model of `Hook.Run`: the returned error value alone. -/
def hookRun (exec : Hook → Except String Unit) (dryRun : Bool) (h : Hook) :
    Except String Unit :=
  (hookRunTrace exec dryRun h).2

/-- Model of `Hooks.RunPre` (failover.go lines 233-255), instrumented with the list
of hooks whose `Run` was invoked, in invocation order. A failing hook with
`MustSucceed` returns its error at once; a failing hook without it is only
logged and the loop continues. -/
def runPreAux (exec : Hook → Except String Unit) (dryRun : Bool) :
    List Hook → List Hook × Except String Unit
  | [] => ([], Except.ok ())
  | hk :: rest =>
    match hookRun exec dryRun hk with
    | Except.error e =>
      if hk.mustSucceed then ([hk], Except.error e)
      else
        let r := runPreAux exec dryRun rest
        (hk :: r.1, r.2)
    | Except.ok _ =>
      let r := runPreAux exec dryRun rest
      (hk :: r.1, r.2)

/-- Model of `Hooks.RunPre`: the returned error value alone. -/
def runPre (exec : Hook → Except String Unit) (dryRun : Bool) (hooks : List Hook) :
    Except String Unit :=
  (runPreAux exec dryRun hooks).2

/-- Model of `Hooks.RunPost` (failover.go lines 258-275), instrumented: the first
component lists the hooks whose `Run` was invoked in invocation order, the
second the hooks whose failure was logged. The Go function has no return
value, so a hook failure can only ever be logged, never propagated. -/
def runPostAux (exec : Hook → Except String Unit) (dryRun : Bool) :
    List Hook → List Hook × List Hook
  | [] => ([], [])
  | hk :: rest =>
    let res := hookRun exec dryRun hk
    let r := runPostAux exec dryRun rest
    (hk :: r.1, if isErr res then hk :: r.2 else r.2)

theorem runPreAux_all_ok (exec : Hook → Except String Unit) (dryRun : Bool) :
    ∀ hooks : List Hook,
      (∀ h ∈ hooks, h.mustSucceed = true → isErr (hookRun exec dryRun h) = false) →
      runPreAux exec dryRun hooks = (hooks, Except.ok ())
  | [], _ => rfl
  | hk :: rest, hok => by
    have hrest := runPreAux_all_ok exec dryRun rest
      (fun h hm => hok h (List.mem_cons_of_mem _ hm))
    cases hres : hookRun exec dryRun hk with
    | ok u =>
      simp [runPreAux, hres, hrest]
    | error e =>
      have hmust : hk.mustSucceed = false := by
        cases hms : hk.mustSucceed
        · rfl
        · have := hok hk (List.mem_cons_self _ _) hms
          rw [hres] at this
          simp [isErr] at this
      simp [runPreAux, hres, hmust, hrest]

theorem runPreAux_first_failure (exec : Hook → Except String Unit) (dryRun : Bool)
    (hk : Hook) (e : String) (hmust : hk.mustSucceed = true)
    (herr : hookRun exec dryRun hk = Except.error e) :
    ∀ l1 l2 : List Hook,
      (∀ h ∈ l1, h.mustSucceed = true → isErr (hookRun exec dryRun h) = false) →
      runPreAux exec dryRun (l1 ++ hk :: l2) = (l1 ++ [hk], Except.error e)
  | [], l2, _ => by simp [runPreAux, herr, hmust]
  | h1 :: r1, l2, hok => by
    have hrest := runPreAux_first_failure exec dryRun hk e hmust herr r1 l2
      (fun h hm => hok h (List.mem_cons_of_mem _ hm))
    cases hres : hookRun exec dryRun h1 with
    | ok u =>
      simp [runPreAux, hres, hrest]
    | error e1 =>
      have hms : h1.mustSucceed = false := by
        cases hms1 : h1.mustSucceed
        · rfl
        · have := hok h1 (List.mem_cons_self _ _) hms1
          rw [hres] at this
          simp [isErr] at this
      simp [runPreAux, hres, hms, hrest]

/--
C2: `RunPre` executes the pre-hooks in listed order and fails exactly on the
first failing hook that declares `must_succeed`, returning that hook's error
and running no later hook; failures of hooks without `must_succeed` are
logged only and the chain continues to a nil result.
-/
theorem C2_runPre_first_must_succeed_failure (exec : Hook → Except String Unit)
    (dryRun : Bool) :
    (∀ hooks : List Hook,
      (∀ h ∈ hooks, h.mustSucceed = true → isErr (hookRun exec dryRun h) = false) →
      runPreAux exec dryRun hooks = (hooks, Except.ok ())) ∧
    (∀ (l1 l2 : List Hook) (hk : Hook) (e : String),
      (∀ h ∈ l1, h.mustSucceed = true → isErr (hookRun exec dryRun h) = false) →
      hk.mustSucceed = true → hookRun exec dryRun hk = Except.error e →
      runPreAux exec dryRun (l1 ++ hk :: l2) = (l1 ++ [hk], Except.error e)) :=
  ⟨fun hooks hok => runPreAux_all_ok exec dryRun hooks hok,
   fun l1 l2 hk e hok hmust herr =>
    runPreAux_first_failure exec dryRun hk e hmust herr l1 l2 hok⟩

/-- A concrete command-runner oracle for the hook witnesses: hooks named
`bad` or `worse` fail, all others succeed. -/
def execW : Hook → Except String Unit :=
  fun hk => if hk.name = "bad" || hk.name = "worse" then Except.error "boom" else Except.ok ()

/-- Witness for C2: a chain where a `must_succeed` hook succeeds, a failing
hook without `must_succeed` is passed over, and the first failing
`must_succeed` hook stops the chain before the last hook. -/
theorem C2_witness :
    runPreAux execW false
      [⟨"ok1", "c", [], true⟩, ⟨"bad", "c", [], false⟩,
        ⟨"worse", "c", [], true⟩, ⟨"never", "c", [], true⟩] =
      ([⟨"ok1", "c", [], true⟩, ⟨"bad", "c", [], false⟩, ⟨"worse", "c", [], true⟩],
        Except.error "boom") :=
  (C2_runPre_first_must_succeed_failure execW false).2
    [⟨"ok1", "c", [], true⟩, ⟨"bad", "c", [], false⟩] [⟨"never", "c", [], true⟩]
    ⟨"worse", "c", [], true⟩ "boom" (by decide) (by decide) (by rfl)

/--
C4: with `DryRun` set, `Hook.Run` returns nil for every hook without ever
reaching the command runner, so no subprocess is spawned in dry-run mode,
whatever the hook and whatever the runner would have done.
-/
theorem C4_hookRun_dryRun_no_spawn (exec : Hook → Except String Unit) (h : Hook) :
    hookRunTrace exec true h = (false, Except.ok ()) :=
  rfl

theorem runPostAux_spec (exec : Hook → Except String Unit) (dryRun : Bool) :
    ∀ hooks : List Hook,
      (runPostAux exec dryRun hooks).1 = hooks ∧
      (runPostAux exec dryRun hooks).2 =
        hooks.filter (fun h => isErr (hookRun exec dryRun h))
  | [] => ⟨rfl, rfl⟩
  | hk :: rest => by
    have hrest := runPostAux_spec exec dryRun rest
    cases hres : isErr (hookRun exec dryRun hk)
    · simp [runPostAux, hres, hrest.1, hrest.2, List.filter]
    · simp [runPostAux, hres, hrest.1, hrest.2, List.filter]

/--
C5: `RunPost` invokes every post-hook in listed order no matter which hooks
fail; a failure only lands in the logged-failures list. The Go function
returns nothing, so no error can propagate to the caller.
-/
theorem C5_runPost_runs_all (exec : Hook → Except String Unit) (dryRun : Bool)
    (hooks : List Hook) :
    (runPostAux exec dryRun hooks).1 = hooks ∧
    (runPostAux exec dryRun hooks).2 =
      hooks.filter (fun h => isErr (hookRun exec dryRun h)) :=
  runPostAux_spec exec dryRun hooks

/-! ## Roles and the failover configuration (internal/config/failover.go) -/

/-- Model of `Role`: the fields of a role as used by failover.go and shown by
role_test.go (`Name`, `Command`, `Args`, `Env`, `Hooks`). -/
structure Role where
  name : String
  command : String
  args : List String
  env : List (String × String)
  hooks : Hooks
deriving DecidableEq

/-- Model of `Failover` (failover.go lines 10-18). Durations are nanosecond counts
(`time.Duration`); `TakeoverJitterSeconds` is a Go `int`. -/
structure Failover where
  dryRun : Bool
  pollIntervalDuration : Int
  leaderlessThresholdDuration : Int
  takeoverJitterSeconds : Int
  active : Role
  passive : Role
  peers : PeersList
deriving DecidableEq

/-- Splitting a character list at every dot, as `.`-separation of a Go
string (empty input gives one empty field, like `strings.Split`). -/
def splitOnDot : List Char → List (List Char)
  | [] => [[]]
  | c :: rest =>
    if c = '.' then [] :: splitOnDot rest
    else
      match splitOnDot rest with
      | [] => [[c]]
      | g :: gs => (c :: g) :: gs

/-- Numeric value of a decimal digit field. -/
def fieldVal (cs : List Char) : Nat :=
  cs.foldl (fun n c => n * 10 + (c.toNat - 48)) 0

/-- One dotted-quad field as the Go stdlib accepts it: 1-3 decimal digits,
value at most 255, and no leading zero in a multi-digit field. -/
def isIPv4Field (cs : List Char) : Bool :=
  decide (cs ≠ []) && decide (cs.length ≤ 3) && cs.all (fun c => c.isDigit) &&
    (decide (cs.length = 1) || decide (cs.headD '0' ≠ '0')) &&
    decide (fieldVal cs ≤ 255)

/-- The IP test of failover.go line 89,
`net.ParseIP(peer.IP) != nil && net.ParseIP(peer.IP).To4() != nil`, for the
dotted-quad form `a.b.c.d`: the Go stdlib parser lives outside this
repository, and every string this development evaluates it on is of that
form. -/
def isIPv4String (s : String) : Bool :=
  let groups := splitOnDot s.data
  decide (groups.length = 4) && groups.all isIPv4Field

/-- Model of `Hook.Validate` (failover.go lines 190-206): name and command must be
non-empty, and `must_succeed` is rejected unless `allowMustSucceed`. -/
def hookValidate (allowMustSucceed : Bool) (h : Hook) : Except String Unit :=
  if h.name = "" then Except.error "must have a name"
  else if h.command = "" then Except.error "must have a command"
  else if !allowMustSucceed && h.mustSucceed then
    Except.error "hook must_succeed not allowed for post hooks"
  else Except.ok ()

/-- The indexed loops of `Hooks.Validate` (failover.go lines 173-184),
wrapping a hook's error as `<label>[<i>]: <err>`. -/
def validateHookList (allow : Bool) (label : String) : List Hook → Nat → Except String Unit
  | [], _ => Except.ok ()
  | hk :: rest, i =>
    match hookValidate allow hk with
    | Except.error e => Except.error (label ++ "[" ++ toString i ++ "]: " ++ e)
    | Except.ok _ => validateHookList allow label rest (i + 1)

/-- Model of `Hooks.Validate` (failover.go lines 171-187): pre-hooks validated with
`allowMustSucceed = true`, post-hooks with `false`. -/
def hooksValidate (h : Hooks) : Except String Unit := do
  validateHookList true "hooks.pre" h.pre 0
  validateHookList false "hooks.post" h.post 0

/-- One of the four inline hook loops of `Failover.Validate` (failover.go
lines 37-44, 47-54, 62-69, 72-79): each hook needs a non-empty name and a
non-empty command — nothing else is checked there. -/
def checkHookNamesCommands (msgName msgCommand : String) : List Hook → Except String Unit
  | [] => Except.ok ()
  | hk :: rest =>
    if hk.name = "" then Except.error msgName
    else if hk.command = "" then Except.error msgCommand
    else checkHookNamesCommands msgName msgCommand rest

/-- The peers loop of `Failover.Validate` (failover.go lines 87-96), with
`seen` the set of IPs already recorded in the `ips` map. -/
def checkPeers (ipv4OK : String → Bool) : PeersList → List String → Except String Unit
  | [], _ => Except.ok ()
  | (name, peer) :: rest, seen =>
    if ipv4OK peer.ip = false then
      Except.error ("failover.peers - invalid IP address " ++ peer.ip ++ " for peer " ++ name)
    else if seen.contains peer.ip then
      Except.error ("failover.peers - duplicate IP address " ++ peer.ip ++ " found for peer " ++ name)
    else checkPeers ipv4OK rest (peer.ip :: seen)

/-- Model of `Failover.Validate` (failover.go lines 20-99), check for check in
source order. `ipv4OK` stands for the Go stdlib IP test of line 89. Note
line 22 tests `PollIntervalDuration == 0` while line 27 tests
`LeaderlessThresholdDuration <= 0`. -/
def failoverValidate (ipv4OK : String → Bool) (f : Failover) : Except String Unit := do
  if f.pollIntervalDuration = 0 then
    throw "failover.poll_interval_duration must be greater than zero"
  if f.leaderlessThresholdDuration ≤ 0 then
    throw "failover.leaderless_threshold_duration must be positive and non-zero"
  if f.active.command = "" then
    throw "failover.active.command must be defined"
  checkHookNamesCommands "failover.active.hooks.pre must have a name"
    "failover.active.hooks.pre must have a command" f.active.hooks.pre
  checkHookNamesCommands "failover.active.hooks.post must have a name"
    "failover.active.hooks.post must have a command" f.active.hooks.post
  if f.passive.command = "" then
    throw "failover.passive.command must be defined"
  checkHookNamesCommands "failover.passive.hooks.pre must have a name"
    "failover.passive.hooks.pre must have a command" f.passive.hooks.pre
  checkHookNamesCommands "failover.passive.hooks.post must have a name"
    "failover.passive.hooks.post must have a command" f.passive.hooks.post
  if f.peers.isEmpty then
    throw "failover.peers - at least one peer must be defined"
  checkPeers ipv4OK f.peers []

/-- One second of `time.Duration`, in nanoseconds. -/
def secondNs : Int := 1000000000

/-- Model of `Failover.SetDefaults` (failover.go lines 117-132): each of the three
numeric fields is replaced by its default exactly when it equals 0, and the
role names are stamped. -/
def failoverSetDefaults (f : Failover) : Failover :=
  let f1 := if f.pollIntervalDuration = 0 then
    { f with pollIntervalDuration := 5 * secondNs } else f
  let f2 := if f1.leaderlessThresholdDuration = 0 then
    { f1 with leaderlessThresholdDuration := 15 * secondNs } else f1
  let f3 := if f2.takeoverJitterSeconds = 0 then
    { f2 with takeoverJitterSeconds := 3 } else f2
  { f3 with
    active := { f3.active with name := "active" },
    passive := { f3.passive with name := "passive" } }

/-- A valid role with no hooks. -/
def plainRole (cmd : String) : Role := ⟨"", cmd, [], [], ⟨[], []⟩⟩

/-- A failover configuration that is fully valid except that its passive
role carries a post-hook with `must_succeed: true`. -/
def cfgPostMustSucceed : Failover :=
  ⟨false, 5 * secondNs, 15 * secondNs, 3,
    plainRole "run-active",
    ⟨"", "run-passive", [], [], ⟨[], [⟨"guard", "exit 1", [], true⟩]⟩⟩,
    [("a", ⟨"10.0.0.1", "a"⟩)]⟩

/--
C3 (code bug): `Failover.Validate` accepts a configuration whose post-hook
sets `must_succeed: true` — its inline post-hook loops only check name and
command — even though `Hook.Validate(false)`, reachable only through
`Hooks.Validate`, rejects exactly that hook, and the spec requires the
rejection at config-validation time.
-/
theorem C3_post_must_succeed_passes_failover_validate :
    failoverValidate isIPv4String cfgPostMustSucceed = Except.ok () ∧
    hookValidate false ⟨"guard", "exit 1", [], true⟩ =
      Except.error "hook must_succeed not allowed for post hooks" ∧
    hooksValidate ⟨[], [⟨"guard", "exit 1", [], true⟩]⟩ =
      Except.error "hooks.post[0]: hook must_succeed not allowed for post hooks" :=
  ⟨rfl, rfl, rfl⟩

/-- A failover configuration that is fully valid except for a negative
(one second) poll interval. -/
def cfgNegativePoll : Failover :=
  ⟨false, -secondNs, 15 * secondNs, 3,
    plainRole "run-active", plainRole "run-passive",
    [("a", ⟨"10.0.0.1", "a"⟩)]⟩

/--
C6 (code bug): `Failover.Validate` tests `PollIntervalDuration == 0`, not
`<= 0` as its own comment, its error message and the spec demand (and as
the adjacent leaderless-threshold check does), so a negative poll interval
passes validation.
-/
theorem C6_negative_poll_interval_accepted :
    cfgNegativePoll.pollIntervalDuration < 0 ∧
    failoverValidate isIPv4String cfgNegativePoll = Except.ok () :=
  ⟨by decide, rfl⟩

/-- A failover configuration with `takeover_jitter_seconds` explicitly 0. -/
def cfgJitterZero : Failover :=
  ⟨false, 5 * secondNs, 15 * secondNs, 0,
    plainRole "run-active", plainRole "run-passive",
    [("a", ⟨"10.0.0.1", "a"⟩)]⟩

/--
C7 counterexample: an explicitly configured `takeover_jitter_seconds` of 0
is not preserved by `SetDefaults` — it comes out as the default 3.
-/
theorem C7_counterexample_zero_jitter_overwritten :
    cfgJitterZero.takeoverJitterSeconds = 0 ∧
    (failoverSetDefaults cfgJitterZero).takeoverJitterSeconds = 3 :=
  ⟨rfl, rfl⟩

/--
C7 (amended): `SetDefaults` replaces each numeric field by its default
(3 for the jitter bound, 5s and 15s for the durations) exactly when the
field equals 0 — the Go zero value, which is also what an unset key
unmarshals to. In particular a configured 0 cannot be distinguished from
an unset key and is overwritten, while any non-zero value is preserved.
-/
theorem C7_setDefaults_zero_means_default (f : Failover) :
    (failoverSetDefaults f).takeoverJitterSeconds =
      (if f.takeoverJitterSeconds = 0 then 3 else f.takeoverJitterSeconds) ∧
    (failoverSetDefaults f).pollIntervalDuration =
      (if f.pollIntervalDuration = 0 then 5 * secondNs else f.pollIntervalDuration) ∧
    (failoverSetDefaults f).leaderlessThresholdDuration =
      (if f.leaderlessThresholdDuration = 0 then 15 * secondNs
        else f.leaderlessThresholdDuration) := by
  unfold failoverSetDefaults
  split_ifs <;> simp_all

/-! ## Notification configuration (config, notifications part) -/

/-- Model of `NotificationEvents`: the thirteen per-event-type filter flags. -/
structure NotificationEvents where
  startup : Bool
  shutdown : Bool
  becomingActive : Bool
  becameActive : Bool
  becomingPassive : Bool
  becamePassive : Bool
  healthUnhealthy : Bool
  healthRecovered : Bool
  delinquent : Bool
  gossipLost : Bool
  gossipRecovered : Bool
  peerDiscovered : Bool
  peerLost : Bool
deriving DecidableEq

/-- Model of `DiscordConfig`. -/
structure DiscordConfig where
  enabled : Bool
  webhookURL : String
  webhookURLEnv : String
  username : String
  avatarURL : String
deriving DecidableEq

/-- Model of `TelegramConfig`. -/
structure TelegramConfig where
  enabled : Bool
  botToken : String
  botTokenEnv : String
  chatID : String
  parseMode : String
deriving DecidableEq

/-- Model of `SlackConfig`. -/
structure SlackConfig where
  enabled : Bool
  webhookURL : String
  webhookURLEnv : String
  channel : String
  username : String
  iconEmoji : String
deriving DecidableEq

/-- Model of `PagerDutyConfig`. -/
structure PagerDutyConfig where
  enabled : Bool
  routingKey : String
  routingKeyEnv : String
deriving DecidableEq

/-- Model of `NotificationConfig`. -/
structure NotificationConfig where
  enabled : Bool
  discord : DiscordConfig
  telegram : TelegramConfig
  slack : SlackConfig
  pagerduty : PagerDutyConfig
  events : NotificationEvents
deriving DecidableEq

/-- The all-enabled event filter. -/
def allEventsOn : NotificationEvents :=
  ⟨true, true, true, true, true, true, true, true, true, true, true, true, true⟩

/-- Model of `NotificationConfig.SetDefaults`: all thirteen event flags are assigned
`true` unconditionally, while the Telegram parse mode, the Discord username
and the Slack username and icon are defaulted only when empty. -/
def notificationSetDefaults (n : NotificationConfig) : NotificationConfig :=
  { n with
    events := allEventsOn,
    telegram := { n.telegram with
      parseMode := if n.telegram.parseMode = "" then "HTML" else n.telegram.parseMode },
    discord := { n.discord with
      username := if n.discord.username = "" then "Solana HA Bot" else n.discord.username },
    slack := { n.slack with
      username := if n.slack.username = "" then "Solana HA Bot" else n.slack.username,
      iconEmoji := if n.slack.iconEmoji = "" then ":robot_face:" else n.slack.iconEmoji } }

/--
C10: `NotificationConfig.SetDefaults` sets every one of the thirteen event
flags to true unconditionally — whatever the prior value of the config,
including flags explicitly set to false — whereas the other defaults in the
same function (Telegram parse mode, Discord username, Slack username and
icon) are applied only when the field is empty.
-/
theorem C10_setDefaults_forces_all_event_flags (n : NotificationConfig) :
    (notificationSetDefaults n).events = allEventsOn ∧
    (notificationSetDefaults n).telegram.parseMode =
      (if n.telegram.parseMode = "" then "HTML" else n.telegram.parseMode) ∧
    (notificationSetDefaults n).discord.username =
      (if n.discord.username = "" then "Solana HA Bot" else n.discord.username) ∧
    (notificationSetDefaults n).slack.username =
      (if n.slack.username = "" then "Solana HA Bot" else n.slack.username) ∧
    (notificationSetDefaults n).slack.iconEmoji =
      (if n.slack.iconEmoji = "" then ":robot_face:" else n.slack.iconEmoji) ∧
    (notificationSetDefaults n).enabled = n.enabled :=
  ⟨rfl, rfl, rfl, rfl, rfl, rfl⟩

/-! ## Notification manager (internal/notify, manager part) -/

/-- A registered sink as `Manager.Notify` observes it: its `IsEnabled`
answer, how many seconds its synchronous `Send` takes, and whether `Send`
returns an error. -/
structure SinkModel where
  enabled : Bool
  sendSeconds : Nat
  sendFails : Bool
deriving DecidableEq

/-- The notification `Manager` fields that `Notify` consults. -/
structure ManagerModel where
  enabled : Bool
  eventFilter : NotificationEvents
  notifiers : List SinkModel
deriving DecidableEq

/-- One `notifier.Send` dispatch performed by the loop of `Manager.Notify`:
the sink, the time its dispatch begins, the deadline of the context its
`Send` receives, and whether its failure was logged. -/
structure Dispatch where
  sink : SinkModel
  startAt : Nat
  ctxDeadline : Nat
  failureLogged : Bool
deriving DecidableEq

/-- The dispatch loop of `Manager.Notify`: `deadline` is the deadline of
the single context created before the loop; `t` is the current time, which
advances by each synchronous `Send`'s duration. Disabled sinks are skipped;
a `Send` error is logged and the loop continues either way. -/
def notifyLoop (deadline : Nat) : Nat → List SinkModel → List Dispatch
  | _, [] => []
  | t, s :: rest =>
    if s.enabled then
      ⟨s, t, deadline, s.sendFails⟩ :: notifyLoop deadline (t + s.sendSeconds) rest
    else notifyLoop deadline t rest

/-- Model of `Manager.isEventEnabled`: switch over the event-type string, defaulting
to enabled for unknown types. -/
def isEventEnabled (f : NotificationEvents) (t : String) : Bool :=
  if t = "startup" then f.startup
  else if t = "shutdown" then f.shutdown
  else if t = "becoming_active" then f.becomingActive
  else if t = "became_active" then f.becameActive
  else if t = "becoming_passive" then f.becomingPassive
  else if t = "became_passive" then f.becamePassive
  else if t = "health_unhealthy" then f.healthUnhealthy
  else if t = "health_recovered" then f.healthRecovered
  else if t = "delinquent" then f.delinquent
  else if t = "gossip_lost" then f.gossipLost
  else if t = "gossip_recovered" then f.gossipRecovered
  else if t = "peer_discovered" then f.peerDiscovered
  else if t = "peer_lost" then f.peerLost
  else true

/-- Model of `Manager.Notify`: nothing is dispatched when the manager is disabled or
the event type is filtered out; otherwise a single context with deadline
`t0 + 10` seconds is created before the loop and the loop dispatches to
every enabled notifier in registration order. The Go method returns no
value, so its observable behaviour is this dispatch list. -/
def managerNotify (m : ManagerModel) (eventType : String) (t0 : Nat) : List Dispatch :=
  if m.enabled = false then []
  else if isEventEnabled m.eventFilter eventType = false then []
  else notifyLoop (t0 + 10) t0 m.notifiers

theorem notifyLoop_deadline (deadline : Nat) :
    ∀ (t : Nat) (sinks : List SinkModel),
      ∀ d ∈ notifyLoop deadline t sinks, d.ctxDeadline = deadline
  | _, [], _, hd => by simp [notifyLoop] at hd
  | t, s :: rest, d, hd => by
    by_cases hs : s.enabled
    · rw [notifyLoop, if_pos hs] at hd
      rcases List.mem_cons.mp hd with rfl | hd2
      · rfl
      · exact notifyLoop_deadline deadline (t + s.sendSeconds) rest d hd2
    · rw [notifyLoop, if_neg hs] at hd
      exact notifyLoop_deadline deadline t rest d hd

theorem notifyLoop_sinks (deadline : Nat) :
    ∀ (t : Nat) (sinks : List SinkModel),
      (notifyLoop deadline t sinks).map Dispatch.sink =
        sinks.filter (fun s => s.enabled)
  | _, [] => rfl
  | t, s :: rest => by
    by_cases hs : s.enabled
    · rw [notifyLoop, if_pos hs]
      simp [List.filter, hs, notifyLoop_sinks deadline (t + s.sendSeconds) rest]
    · rw [notifyLoop, if_neg hs]
      simp [List.filter, hs, notifyLoop_sinks deadline t rest]

theorem notifyLoop_failureLogged (deadline : Nat) :
    ∀ (t : Nat) (sinks : List SinkModel),
      ∀ d ∈ notifyLoop deadline t sinks, d.failureLogged = d.sink.sendFails
  | _, [], _, hd => by simp [notifyLoop] at hd
  | t, s :: rest, d, hd => by
    by_cases hs : s.enabled
    · rw [notifyLoop, if_pos hs] at hd
      rcases List.mem_cons.mp hd with rfl | hd2
      · rfl
      · exact notifyLoop_failureLogged deadline (t + s.sendSeconds) rest d hd2
    · rw [notifyLoop, if_neg hs] at hd
      exact notifyLoop_failureLogged deadline t rest d hd

/--
C8 counterexample: with two enabled sinks of which the first spends 5
seconds in `Send`, the second sink's context still expires at `t0 + 10`,
not 10 seconds after that sink's own dispatch begins — the claimed per-sink
deadline does not hold.
-/
theorem C8_counterexample_shared_context :
    ¬ (∀ d ∈ managerNotify ⟨true, allEventsOn, [⟨true, 5, false⟩, ⟨true, 0, false⟩]⟩
        "startup" 0, d.ctxDeadline = d.startAt + 10) := by
  decide

/--
C8 (amended): `Manager.Notify` creates a single context with a 10-second
deadline before its dispatch loop and passes that one context to every
sink: every dispatched sink's `Send` receives the deadline `t0 + 10`,
where `t0` is when `Notify` began — not 10 seconds after the individual
dispatch begins.
-/
theorem C8_one_shared_ten_second_deadline (m : ManagerModel) (eventType : String)
    (t0 : Nat) :
    ∀ d ∈ managerNotify m eventType t0, d.ctxDeadline = t0 + 10 := by
  intro d hd
  unfold managerNotify at hd
  split_ifs at hd with h1 h2
  · simp at hd
  · simp at hd
  · exact notifyLoop_deadline (t0 + 10) t0 m.notifiers d hd

/-- Witness for the amended C8 at a concrete manager: the first dispatched
sink of the counterexample manager receives deadline 0 + 10. -/
theorem C8_witness :
    (⟨⟨true, 5, false⟩, 0, 10, false⟩ : Dispatch) ∈
      managerNotify ⟨true, allEventsOn, [⟨true, 5, false⟩, ⟨true, 0, false⟩]⟩ "startup" 0 ∧
    (⟨⟨true, 5, false⟩, 0, 10, false⟩ : Dispatch).ctxDeadline = 0 + 10 :=
  ⟨by decide,
    C8_one_shared_ten_second_deadline
      ⟨true, allEventsOn, [⟨true, 5, false⟩, ⟨true, 0, false⟩]⟩ "startup" 0
      ⟨⟨true, 5, false⟩, 0, 10, false⟩ (by decide)⟩

/--
C9: a failing `Send` neither stops the fan-out nor surfaces anywhere: for
an enabled manager and an unfiltered event, the dispatched sinks are
exactly the enabled notifiers in registration order — whatever each sink's
`Send` outcome — and each failure is only logged. `Notify` has no error
return at all.
-/
theorem C9_sink_failure_is_isolated (m : ManagerModel) (eventType : String) (t0 : Nat)
    (h1 : m.enabled = true) (h2 : isEventEnabled m.eventFilter eventType = true) :
    (managerNotify m eventType t0).map Dispatch.sink =
      m.notifiers.filter (fun s => s.enabled) ∧
    ∀ d ∈ managerNotify m eventType t0, d.failureLogged = d.sink.sendFails := by
  have hne : managerNotify m eventType t0 = notifyLoop (t0 + 10) t0 m.notifiers := by
    unfold managerNotify
    rw [h1, h2]
    simp
  rw [hne]
  exact ⟨notifyLoop_sinks (t0 + 10) t0 m.notifiers,
    notifyLoop_failureLogged (t0 + 10) t0 m.notifiers⟩

/-- Witness for C9 at a concrete manager whose first enabled sink fails:
the failing sink and both later enabled sinks are all dispatched. -/
theorem C9_witness :
    ((⟨true, allEventsOn, [⟨true, 0, true⟩, ⟨false, 0, false⟩, ⟨true, 0, false⟩]⟩ :
        ManagerModel).enabled = true ∧
      isEventEnabled allEventsOn "delinquent" = true) ∧
    (managerNotify ⟨true, allEventsOn, [⟨true, 0, true⟩, ⟨false, 0, false⟩, ⟨true, 0, false⟩]⟩
        "delinquent" 7).map Dispatch.sink = [⟨true, 0, true⟩, ⟨true, 0, false⟩] := by
  refine ⟨⟨rfl, rfl⟩, ?_⟩
  have h := C9_sink_failure_is_isolated
    ⟨true, allEventsOn, [⟨true, 0, true⟩, ⟨false, 0, false⟩, ⟨true, 0, false⟩]⟩
    "delinquent" 7 rfl rfl
  rw [h.1]
  decide

end SolanaValidatorHA
